import Mathlib

/-!
Verification of the transfermarkt club-scraper frontend
(`src/unnamed/part_000`, a Next.js client page).

The development shallowly embeds the client-side job lifecycle and
event-stream controller: the pure helpers `parseTeamIds` and
`downloadUrl`, the Job State record, the stream-event handlers
(`handleStreamEvent`, the `onmessage`/`onerror` callbacks installed by
`startStream`), the submission handler `onSubmit`, and the reset /
teardown paths.  Stateful callback code is embedded as explicit state
transformers on a `ClientState` record, and the whole reactive system is
a step relation `StepG` whose reflexive-transitive closure from
`initialState` describes all reachable client states.

Platform primitives used by the source (`encodeURIComponent`,
`String.prototype.trim`, `String.prototype.split`, `Array.prototype.join`,
UTF-8 percent-encoding/decoding) are modelled from their ECMAScript
specifications, since they are library builtins, not repository code.
-/

namespace ClubScraper

/-- The `JobResult` payload type from the source (lines 12-19).  `teams` is the
list of `(club_id, club_name)` pairs. -/
structure JobResult where
  teams : List (String × String)
  club_ids_csv : String
  generated_csvs : List String
  augmented_csvs : List String
  workbook : String
  selected_fields : List String
deriving DecidableEq

/-- The `StreamEvent` wire union from the source (lines 21-25). -/
inductive StreamEvent where
  | status (status : String) (timestamp : Option String)
  | log (message : String) (timestamp : Option String)
  | error (error : String) (timestamp : Option String)
  | result (status : String) (timestamp : Option String) (data : JobResult)
deriving DecidableEq

/-- One `EventSource` channel created by `startStream`: the job id it is
scoped to, whether it is still open, and the environment captured by the
`onerror` closure installed on it.  `startStream` is a `useCallback` with
dependency array `[handleStreamEvent, result]` (line 151), so the `result`
read by `onerror` (line 146) is the binding of the render that created the
invoked `startStream` closure — not the live state.  That captured binding
is recorded per channel as `capturedResult`. -/
structure Channel where
  jobId : String
  isOpen : Bool
  capturedResult : Option JobResult
deriving DecidableEq

/-- The client-side Job State: the React `useState`/`useRef` cells of the
component that the claims are about (lines 43-49).  `channels` records every
event channel ever created (in creation order) together with its open flag,
and `esRef` is the index held by `eventSourceRef.current` (if non-null).
`fieldsPending` tracks whether the one-shot `fetchFields` effect has
resolved yet. -/
structure ClientState where
  jobId : Option String
  jobStatus : String
  logs : List String
  error : Option String
  result : Option JobResult
  channels : List Channel
  esRef : Option Nat
  isSubmitting : Bool
  fieldsPending : Bool
deriving DecidableEq

/-- Initial component state (lines 43-49): status `"Idle"`, everything else
empty, no channel ever opened, catalog fetch still pending. -/
def initialState : ClientState :=
  { jobId := none, jobStatus := "Idle", logs := [], error := none,
    result := none, channels := [], esRef := none, isSubmitting := false,
    fieldsPending := true }

/-! ### Team-id parsing (source lines 27-32) -/

/-- A character matched by the split regex `/[\n,]+/`. -/
def isDelim (c : Char) : Bool := c = '\n' || c = ','

/-- ECMAScript whitespace as removed by `String.prototype.trim`:
WhiteSpace and LineTerminator code points. -/
def jsWhitespaceChar (c : Char) : Bool :=
  let n := c.toNat
  n = 0x09 || n = 0x0A || n = 0x0B || n = 0x0C || n = 0x0D || n = 0x20 ||
  n = 0xA0 || n = 0x1680 || (0x2000 ≤ n && n ≤ 0x200A) || n = 0x2028 ||
  n = 0x2029 || n = 0x202F || n = 0x205F || n = 0x3000 || n = 0xFEFF

/-- The `input.split(/[\n,]+/)` on character lists: tokens between maximal runs
of delimiters, with an empty token at an end of the string that begins or
ends with a delimiter run (ECMAScript `String.prototype.split` with a
regular expression separator). -/
def splitRuns : List Char → List (List Char)
  | [] => [[]]
  | c :: cs =>
    if isDelim c then
      match cs with
      | [] => [[], []]
      | c2 :: _ => if isDelim c2 then splitRuns cs else [] :: splitRuns cs
    else
      match splitRuns cs with
      | [] => [[c]]
      | t :: ts => (c :: t) :: ts

/-- The `part.trim()`: drop ECMAScript whitespace from both ends. -/
def trimChars (l : List Char) : List Char :=
  (((l.dropWhile jsWhitespaceChar).reverse.dropWhile jsWhitespaceChar)).reverse

/-- The token pipeline of `parseTeamIds` on character lists: split on
`/[\n,]+/`, trim each token, drop empty tokens (`filter(Boolean)`). -/
def parseTokens (l : List Char) : List (List Char) :=
  ((splitRuns l).map trimChars).filter (fun t => !t.isEmpty)

/-- The `parseTeamIds` from the source (lines 27-32). -/
def parseTeamIds (input : String) : List String :=
  (parseTokens input.data).map (fun t => String.mk t)

/-- The `Array.prototype.join` with a separator, on character lists. -/
def jsJoinChars (sep : List Char) : List (List Char) → List Char
  | [] => []
  | [t] => t
  | t :: ts => t ++ sep ++ jsJoinChars sep ts

/-- The `xs.join(sep)` for an array of strings. -/
def jsJoin (sep : String) (xs : List String) : String :=
  String.mk (jsJoinChars sep.data (xs.map String.data))

/-- Outcome of the guard at the top of `onSubmit` (lines 156-161): either
the client-side validation error, or a network submission carrying the
parsed club ids. -/
inductive SubmitAction where
  | rejected (msg : String)
  | network (clubIds : List String)
deriving DecidableEq

/-- The decision made by `onSubmit` before any I/O (lines 157-161): an empty
parse result sets the validation error and returns without fetching. -/
def onSubmitAction (input : String) : SubmitAction :=
  let clubIds := parseTeamIds input
  if clubIds.isEmpty then SubmitAction.rejected "Provide at least one club ID."
  else SubmitAction.network clubIds

/-! ### Download URLs (source lines 5, 34-35) -/

/-- Default `API_BASE` (line 5). -/
def API_BASE : String := "http://localhost:8080"

/-- Characters left unescaped by ECMAScript `encodeURIComponent`:
`A-Z a-z 0-9 - _ . ! ~ * ' ( )`. -/
def isUnreservedChar (c : Char) : Bool :=
  let n := c.toNat
  (0x41 ≤ n && n ≤ 0x5A) || (0x61 ≤ n && n ≤ 0x7A) || (0x30 ≤ n && n ≤ 0x39) ||
  n = 0x2D || n = 0x5F || n = 0x2E || n = 0x21 || n = 0x7E || n = 0x2A ||
  n = 0x27 || n = 0x28 || n = 0x29

/-- UTF-8 code units of a scalar value, as a list of byte values. -/
def utf8Bytes (c : Char) : List Nat :=
  let n := c.toNat
  if n < 0x80 then [n]
  else if n < 0x800 then [0xC0 + n / 64, 0x80 + n % 64]
  else if n < 0x10000 then [0xE0 + n / 4096, 0x80 + n / 64 % 64, 0x80 + n % 64]
  else [0xF0 + n / 0x40000, 0x80 + n / 4096 % 64, 0x80 + n / 64 % 64, 0x80 + n % 64]

/-- Uppercase hex digit for a value below 16. -/
def hexDigitChar (n : Nat) : Char :=
  if n < 10 then Char.ofNat (0x30 + n) else Char.ofNat (0x41 + (n - 10))

/-- Value of a hex digit character, if it is one. -/
def hexVal (c : Char) : Option Nat :=
  let n := c.toNat
  if 0x30 ≤ n && n ≤ 0x39 then some (n - 0x30)
  else if 0x41 ≤ n && n ≤ 0x46 then some (n - 0x41 + 10)
  else if 0x61 ≤ n && n ≤ 0x66 then some (n - 0x61 + 10)
  else none

/-- The `%XX` escape of one byte. -/
def percentByte (b : Nat) : List Char :=
  ['%', hexDigitChar (b / 16), hexDigitChar (b % 16)]

/-- Encoding of a single character under `encodeURIComponent`. -/
def encodeChar (c : Char) : List Char :=
  if isUnreservedChar c then [c] else ((utf8Bytes c).map percentByte).flatten

/-- ECMAScript `encodeURIComponent`, modelled from its specification. -/
def encodeURIComponent (s : String) : String :=
  String.mk ((s.data.map encodeChar).flatten)

/-- The `downloadUrl` from the source (lines 34-35):
`API_BASE + "/download?path=" + encodeURIComponent(path)`. -/
def downloadUrl (path : String) : String :=
  API_BASE ++ "/download?path=" ++ encodeURIComponent path

/-- First phase of `decodeURIComponent`: turn the escaped string back into
the byte sequence, consuming `%XX` escapes and passing other characters
through as their UTF-8 bytes. -/
def percentDecodeBytes : List Char → Option (List Nat)
  | [] => some []
  | c :: rest =>
    if c = '%' then
      match rest with
      | h :: l :: rest2 =>
        match hexVal h, hexVal l with
        | some hv, some lv => (percentDecodeBytes rest2).map (fun bs => (16 * hv + lv) :: bs)
        | _, _ => none
      | _ => none
    else (percentDecodeBytes rest).map (fun bs => utf8Bytes c ++ bs)

/-- Whether a byte is a UTF-8 continuation byte. -/
def utf8Cont (b : Nat) : Bool := 0x80 ≤ b && b < 0xC0

/-- One step of UTF-8 decoding: given the lead byte and the remaining bytes,
produce the decoded scalar value and the number of continuation bytes
consumed, or `none` on a malformed sequence. -/
def utf8DecodeStep (b : Nat) (bs : List Nat) : Option (Char × Nat) :=
  if b < 0x80 then some (Char.ofNat b, 0)
  else if b < 0xC0 then none
  else if b < 0xE0 then
    match bs with
    | b2 :: _ =>
      if utf8Cont b2 then some (Char.ofNat ((b - 0xC0) * 64 + (b2 - 0x80)), 1)
      else none
    | [] => none
  else if b < 0xF0 then
    match bs with
    | b2 :: b3 :: _ =>
      if utf8Cont b2 && utf8Cont b3 then
        some (Char.ofNat ((b - 0xE0) * 4096 + (b2 - 0x80) * 64 + (b3 - 0x80)), 2)
      else none
    | _ => none
  else if b < 0xF8 then
    match bs with
    | b2 :: b3 :: b4 :: _ =>
      if utf8Cont b2 && utf8Cont b3 && utf8Cont b4 then
        some (Char.ofNat ((b - 0xF0) * 0x40000 + (b2 - 0x80) * 4096 +
          (b3 - 0x80) * 64 + (b4 - 0x80)), 3)
      else none
    | _ => none
  else none

/-- Second phase of `decodeURIComponent`: UTF-8 decoding of the byte
sequence. -/
def utf8Decode (l : List Nat) : Option (List Char) :=
  match l with
  | [] => some []
  | b :: bs =>
    match utf8DecodeStep b bs with
    | none => none
    | some (c, k) => (utf8Decode (bs.drop k)).map (fun cs => c :: cs)
termination_by l.length
decreasing_by
  simp only [List.length_cons]
  have := List.length_drop k bs
  omega

/-- ECMAScript `decodeURIComponent`, modelled from its specification;
`none` on a malformed escape sequence. -/
def decodeURIComponent (s : String) : Option String :=
  match percentDecodeBytes s.data with
  | none => none
  | some bs =>
    match utf8Decode bs with
    | none => none
    | some cs => some (String.mk cs)

/-! ### Stream controller state machine (source lines 85-190) -/

/-- Mark the channel at index `i` closed (`EventSource.close`). -/
def closeNth : List Channel → Nat → List Channel
  | [], _ => []
  | c :: cs, 0 => { c with isOpen := false } :: cs
  | c :: cs, n + 1 => c :: closeNth cs n

/-- The channel list after `eventSourceRef.current?.close()`. -/
def closeRef (s : ClientState) : List Channel :=
  match s.esRef with
  | none => s.channels
  | some i => closeNth s.channels i

/-- Whether `eventSourceRef.current` is a live (open) channel. -/
def refOpen (s : ClientState) : Bool :=
  match s.esRef with
  | none => false
  | some i =>
    match s.channels[i]? with
    | some c => c.isOpen
    | none => false

/-- The `result` binding captured by the `onerror` closure of the channel
held by `eventSourceRef.current`. -/
def refCaptured (s : ClientState) : Option JobResult :=
  match s.esRef with
  | none => none
  | some i =>
    match s.channels[i]? with
    | some c => c.capturedResult
    | none => none

/-- The `resetJobState` (lines 85-93): close the current channel, null the ref,
clear job id/logs/result/error and set status `"Starting…"`. -/
def resetJobState (s : ClientState) : ClientState :=
  { s with channels := closeRef s, esRef := none, jobId := none,
           jobStatus := "Starting…", logs := [], result := none, error := none }

/-- The formatted log line of lines 104-108: `[timestamp] message`, where the
timestamp is the event's timestamp rendered by `toLocaleTimeString` (modelled
by the ambient formatter `fmtTs`) if present, else the local receipt time
`now`. -/
def logLine (fmtTs : String → String) (now : String) (message : String)
    (ts : Option String) : String :=
  "[" ++ (match ts with | some t => fmtTs t | none => now) ++ "] " ++ message

/-- The `handleStreamEvent` (lines 99-126).  `status` events overwrite the status
string; `log` events append a formatted line; `error` events set status
`"failed"`, store the message (with the `"Workflow failed"` fallback for an
empty string), close the channel and null the ref; `result` events set status
`"completed"`, store the payload, close the channel and null the ref. -/
def handleStreamEvent (fmtTs : String → String) (now : String) (e : StreamEvent)
    (s : ClientState) : ClientState :=
  match e with
  | .status st _ => { s with jobStatus := st }
  | .log message ts => { s with logs := s.logs ++ [logLine fmtTs now message ts] }
  | .error err _ =>
      { s with jobStatus := "failed",
               error := some (if err = "" then "Workflow failed" else err),
               channels := closeRef s, esRef := none, isSubmitting := false }
  | .result _ _ data =>
      { s with jobStatus := "completed", result := some data,
               channels := closeRef s, esRef := none, isSubmitting := false }

/-- The `startStream` (lines 128-152): close any channel held by the ref, then
create a new open channel scoped to `id` and point the ref at it.  The free
variable `result` of the `onerror` closure it installs (captured from the
render that created this `startStream`, per its dependency array on line
151) is closure-converted into the explicit argument `captured` and stored
on the channel. -/
def startStream (id : String) (captured : Option JobResult) (s : ClientState) :
    ClientState :=
  let cs := closeRef s
  { s with channels := cs ++ [{ jobId := id, isOpen := true,
                                capturedResult := captured }],
           esRef := some cs.length }

/-- The `onerror` handler installed by `startStream` (lines 142-149): close
the source, null the ref, stop the submitting spinner, and surface the
connectivity message only when the closure-captured `result` (line 146) is
absent.  The job status is not touched.  Note the handler tests the
render-time `result` binding, not the live state. -/
def onStreamError (captured : Option JobResult) (s : ClientState) : ClientState :=
  { s with channels := closeRef s, esRef := none, isSubmitting := false,
           error := if captured.isNone then some "Connection to workflow stream lost."
                    else s.error }

/-- The validation-failure branch of `onSubmit` (lines 158-161): set the
error and return without touching anything else. -/
def onSubmitReject (s : ClientState) : ClientState :=
  { s with error := some "Provide at least one club ID." }

/-- The successful-submission path of `onSubmit` (lines 162-181): reset job
state, mark submitting, record the server-issued job id, set status
`"running"`, and attach the stream.  The `startStream` closure invoked here
is the one from the render that produced this `onSubmit`, so the `result`
it captured is the pre-reset `s.result` — `resetJobState`'s queued
`setResult(null)` does not change that binding. -/
def onSubmitOk (jid : String) (s : ClientState) : ClientState :=
  let s1 := resetJobState s
  let s2 := { s1 with isSubmitting := true, jobId := some jid, jobStatus := "running" }
  startStream jid s.result s2

/-- The failed-submission path of `onSubmit` (lines 162-187): reset job
state, then in the catch set the error message, status `"failed"`, and stop
submitting.  No channel is opened. -/
def onSubmitErr (message : String) (s : ClientState) : ClientState :=
  let s1 := resetJobState s
  { s1 with error := some message, jobStatus := "failed", isSubmitting := false }

/-- The catch branch of the one-shot `fetchFields` effect (lines 64-67):
surface the catalog-fetch failure message.  The job status is not touched. -/
def fetchFieldsFail (s : ClientState) : ClientState :=
  { s with error := some "Unable to load workbook fields. Refresh and try again." }

/-- The effect cleanup on unmount (lines 72-74): `eventSourceRef.current?.close()`. -/
def unmountCleanup (s : ClientState) : ClientState :=
  { s with channels := closeRef s }

/-- One delivery on the live channel: either a message (whose payload parses
to a `StreamEvent`, or is empty/malformed and parses to nothing), or a
transport error. -/
inductive Arrival where
  | msg (payload : Option StreamEvent)
  | connErr
deriving DecidableEq

/-- Dispatch of one arrival, as wired up by `startStream` (lines 133-149).
Callbacks fire only while the source is open (`refOpen`); a malformed or
empty payload is dropped by the `onmessage` guard/`catch` without touching
state. -/
def deliver (fmtTs : String → String) (now : String) (a : Arrival)
    (s : ClientState) : ClientState :=
  if refOpen s then
    match a with
    | .msg none => s
    | .msg (some e) => handleStreamEvent fmtTs now e s
    | .connErr => onStreamError (refCaptured s) s
  else s

/-- Deliver a sequence of arrivals, each tagged with its local receipt
time. -/
def deliverAll (fmtTs : String → String) (items : List (Arrival × String))
    (s : ClientState) : ClientState :=
  items.foldl (fun s p => deliver fmtTs p.2 p.1 s) s

/-- The projection of Job State that the terminal-exclusivity and
mutual-exclusion claims quantify over. -/
def stateView (s : ClientState) : String × Option JobResult × Option String :=
  (s.jobStatus, s.result, s.error)

/-- Whether a stream event is terminal (`error` or `result`, spec §6). -/
def isTerminalEvent : StreamEvent → Bool
  | .error _ _ => true
  | .result _ _ _ => true
  | _ => false

/-- Whether a timed arrival is a well-formed `log`-event message. -/
def isLogItem : Arrival × String → Bool
  | (.msg (some (.log _ _)), _) => true
  | _ => false

/-- A character that is ECMAScript whitespace or a comma (the alphabet of the
empty-input-rejection claim; the newline is already whitespace). -/
def wsOrComma (c : Char) : Bool := jsWhitespaceChar c || c = ','

/-- One step of the whole client, as an event-driven system.  The two flags
select whether the validation-rejection branch of `onSubmit` and the
catalog-fetch failure are allowed; the full system is `Step` below.  Submit
transitions require `isSubmitting = false` (the submit button is disabled
while submitting), message/error deliveries require a live channel, and the
one-shot catalog fetch resolves at most once. -/
inductive StepG (allowReject allowCatalogFail : Bool) :
    ClientState → ClientState → Prop where
  | fieldsOk (s : ClientState) (h : s.fieldsPending = true) :
      StepG allowReject allowCatalogFail s { s with fieldsPending := false }
  | fieldsFail (s : ClientState) (h : s.fieldsPending = true)
      (ha : allowCatalogFail = true) :
      StepG allowReject allowCatalogFail s
        { fetchFieldsFail s with fieldsPending := false }
  | submitReject (s : ClientState) (input : String) (h : s.isSubmitting = false)
      (hp : parseTeamIds input = []) (ha : allowReject = true) :
      StepG allowReject allowCatalogFail s (onSubmitReject s)
  | submitOk (s : ClientState) (input jid : String) (h : s.isSubmitting = false)
      (hp : parseTeamIds input ≠ []) :
      StepG allowReject allowCatalogFail s (onSubmitOk jid s)
  | submitErr (s : ClientState) (input message : String)
      (h : s.isSubmitting = false) (hp : parseTeamIds input ≠ []) :
      StepG allowReject allowCatalogFail s (onSubmitErr message s)
  | message (s : ClientState) (fmtTs : String → String) (now : String)
      (e : StreamEvent) (h : refOpen s = true) :
      StepG allowReject allowCatalogFail s (handleStreamEvent fmtTs now e s)
  | malformed (s : ClientState) (h : refOpen s = true) :
      StepG allowReject allowCatalogFail s s
  | connLost (s : ClientState) (h : refOpen s = true) :
      StepG allowReject allowCatalogFail s (onStreamError (refCaptured s) s)
  | unmount (s : ClientState) :
      StepG allowReject allowCatalogFail s (unmountCleanup s)

/-- The full client transition relation. -/
def Step : ClientState → ClientState → Prop := StepG true true

/-- Reachability from the initial component state under the chosen flags. -/
def ReachableG (allowReject allowCatalogFail : Bool) (s : ClientState) : Prop :=
  Relation.ReflTransGen (StepG allowReject allowCatalogFail) initialState s

/-- Reachability from the initial component state in the full system. -/
def Reachable (s : ClientState) : Prop := ReachableG true true s

/-! ### Concrete scenario states used by witnesses and counterexamples -/

/-- Identity timestamp formatter used in the concrete scenarios. -/
def fmtId : String → String := fun t => t

/-- A sample terminal `result` payload. -/
def sampleResult : JobResult :=
  { teams := [("6251", "Club A")], club_ids_csv := "out/club_ids.csv",
    generated_csvs := [], augmented_csvs := ["out/a.csv"],
    workbook := "out/wb.xlsx", selected_fields := ["id", "name"] }

/-- State after a successful submission of job `"abc123"` followed by a
`status:"running"` event. -/
def runningState : ClientState :=
  handleStreamEvent fmtId "12:00:00" (.status "running" none)
    (onSubmitOk "abc123" initialState)

/-- The connection-drop scenario: `status:"running"`, one `log`, then a
transport error on the channel. -/
def droppedState : ClientState :=
  deliver fmtId "12:00:02" .connErr
    (deliver fmtId "12:00:01" (.msg (some (.log "scraping club 6251" none)))
      runningState)

/-- State after job `"abc123"` delivered its terminal `result` event. -/
def completedState : ClientState :=
  handleStreamEvent fmtId "12:00:01" (.result "completed" none sampleResult)
    (onSubmitOk "abc123" initialState)

/-- The `completedState` followed by a validation-rejected submission. -/
def bothSetState : ClientState := onSubmitReject completedState

/-- A second job `"job2"` submitted right after `completedState`: the fresh
Job State has no result, but the stream's `onerror` closure captured the
first job's result. -/
def secondJobState : ClientState := onSubmitOk "job2" completedState

/-- `secondJobState` after the channel reports a transport error with no
terminal event. -/
def secondJobDropState : ClientState :=
  deliver fmtId "12:00:03" .connErr secondJobState

/-- State after the one-shot catalog fetch fails on the fresh component. -/
def fieldsFailState : ClientState :=
  { fetchFieldsFail initialState with fieldsPending := false }

/-- State after a stream `status` event carrying the literal `"completed"`. -/
def statusCompletedState : ClientState :=
  handleStreamEvent fmtId "12:00:00" (.status "completed" none)
    (onSubmitOk "job1" initialState)

/-- State after a stream `status` event carrying the literal `"failed"`. -/
def statusFailedState : ClientState :=
  handleStreamEvent fmtId "12:00:00" (.status "failed" none)
    (onSubmitOk "job1" initialState)

/-- The inductive invariant of the full client system: every open channel is
the one held by `eventSourceRef`; a live ref implies no result has been
recorded yet; and a recorded result forces status `"completed"`. -/
structure Inv (s : ClientState) : Prop where
  openRef : ∀ i c, s.channels[i]? = some c → c.isOpen = true → s.esRef = some i
  liveNoResult : refOpen s = true → s.result = none
  resultCompleted : s.result.isSome = true → s.jobStatus = "completed"

/-- The additional invariant of the system without validation-rejected
submissions and catalog-fetch failures: a live ref implies no error has been
surfaced, and `result`/`error` are mutually exclusive. -/
structure InvR (s : ClientState) : Prop where
  liveNoError : refOpen s = true → s.error = none
  mutex : ¬(s.result.isSome = true ∧ s.error.isSome = true)

/-! ## Lemmas about team-id parsing -/

theorem isDelim_comma : isDelim ',' = true := by decide

theorem splitRuns_cons_eq (c : Char) (cs : List Char) :
    splitRuns (c :: cs) =
      if isDelim c then
        match cs with
        | [] => [[], []]
        | c2 :: _ => if isDelim c2 then splitRuns cs else [] :: splitRuns cs
      else
        match splitRuns cs with
        | [] => [[c]]
        | t :: ts => (c :: t) :: ts := by
  rw [splitRuns.eq_def]

theorem splitRuns_one_delim {c : Char} (hc : isDelim c = true) :
    splitRuns [c] = [[], []] := by
  rw [splitRuns_cons_eq, if_pos hc]

theorem splitRuns_delim_delim {c c2 : Char} {cs2 : List Char} (hc : isDelim c = true)
    (h2 : isDelim c2 = true) :
    splitRuns (c :: c2 :: cs2) = splitRuns (c2 :: cs2) := by
  rw [splitRuns_cons_eq, if_pos hc]
  show (if isDelim c2 then splitRuns (c2 :: cs2) else [] :: splitRuns (c2 :: cs2)) =
    splitRuns (c2 :: cs2)
  rw [if_pos h2]

theorem splitRuns_delim_nondelim {c c2 : Char} {cs2 : List Char} (hc : isDelim c = true)
    (h2 : isDelim c2 = false) :
    splitRuns (c :: c2 :: cs2) = [] :: splitRuns (c2 :: cs2) := by
  rw [splitRuns_cons_eq, if_pos hc]
  show (if isDelim c2 then splitRuns (c2 :: cs2) else [] :: splitRuns (c2 :: cs2)) =
    [] :: splitRuns (c2 :: cs2)
  rw [if_neg (by simp [h2])]

theorem splitRuns_nondelim {c : Char} {cs t : List Char} {ts : List (List Char)}
    (hc : isDelim c = false) (hsp : splitRuns cs = t :: ts) :
    splitRuns (c :: cs) = (c :: t) :: ts := by
  rw [splitRuns_cons_eq, if_neg (by simp [hc]), hsp]

theorem splitRuns_ne_nil (l : List Char) : splitRuns l ≠ [] := by
  induction l with
  | nil => simp [splitRuns]
  | cons c cs ih =>
    by_cases hc : isDelim c
    · cases cs with
      | nil => simp [splitRuns_one_delim hc]
      | cons c2 cs2 =>
        by_cases h2 : isDelim c2
        · rw [splitRuns_delim_delim hc h2]
          exact ih
        · simp [splitRuns_delim_nondelim hc (by simpa using h2)]
    · cases hsp : splitRuns cs with
      | nil => exact absurd hsp ih
      | cons t ts => simp [splitRuns_nondelim (by simpa using hc) hsp]

theorem mem_splitRuns {l t : List Char} (ht : t ∈ splitRuns l) :
    ∀ c ∈ t, c ∈ l ∧ isDelim c = false := by
  induction l generalizing t with
  | nil =>
    simp only [splitRuns, List.mem_singleton] at ht
    subst ht
    intro c hc
    exact absurd hc (List.not_mem_nil c)
  | cons c cs ih =>
    by_cases hc : isDelim c
    · cases cs with
      | nil =>
        rw [splitRuns_one_delim hc] at ht
        have hte : t = [] := by
          rcases List.mem_cons.mp ht with h | h
          · exact h
          · simpa using h
        subst hte
        intro c' hc'
        exact absurd hc' (List.not_mem_nil c')
      | cons c2 cs2 =>
        by_cases h2 : isDelim c2
        · rw [splitRuns_delim_delim hc h2] at ht
          intro c' hc'
          obtain ⟨hm, hd⟩ := ih ht c' hc'
          exact ⟨List.mem_cons_of_mem _ hm, hd⟩
        · rw [splitRuns_delim_nondelim hc (by simpa using h2)] at ht
          rcases List.mem_cons.mp ht with rfl | ht
          · intro c' hc'
            exact absurd hc' (List.not_mem_nil c')
          · intro c' hc'
            obtain ⟨hm, hd⟩ := ih ht c' hc'
            exact ⟨List.mem_cons_of_mem _ hm, hd⟩
    · cases hsp : splitRuns cs with
      | nil => exact absurd hsp (splitRuns_ne_nil cs)
      | cons t' ts =>
        rw [splitRuns_nondelim (by simpa using hc) hsp] at ht
        rcases List.mem_cons.mp ht with rfl | ht
        · intro c' hc'
          rcases List.mem_cons.mp hc' with rfl | hc'
          · exact ⟨List.mem_cons_self _ _, by simpa using hc⟩
          · obtain ⟨hm, hd⟩ := ih (hsp ▸ List.mem_cons_self t' ts) c' hc'
            exact ⟨List.mem_cons_of_mem _ hm, hd⟩
        · intro c' hc'
          obtain ⟨hm, hd⟩ := ih (hsp ▸ List.mem_cons_of_mem t' ht) c' hc'
          exact ⟨List.mem_cons_of_mem _ hm, hd⟩

theorem dropWhile_head_false {α : Type} {p : α → Bool} {l : List α} {x : α}
    (h : (l.dropWhile p).head? = some x) : p x = false := by
  induction l with
  | nil => simp [List.dropWhile] at h
  | cons a as ih =>
    by_cases ha : p a
    · rw [List.dropWhile_cons, if_pos ha] at h
      exact ih h
    · rw [List.dropWhile_cons, if_neg ha] at h
      simp only [List.head?_cons, Option.some.injEq] at h
      subst h
      simpa using ha

theorem dropWhile_eq_self_of_head {α : Type} {p : α → Bool} {l : List α}
    (h : ∀ x, l.head? = some x → p x = false) : l.dropWhile p = l := by
  cases l with
  | nil => rfl
  | cons a as =>
    have := h a rfl
    rw [List.dropWhile_cons, if_neg (by simp [this])]

theorem getLast?_dropWhile {α : Type} (p : α → Bool) (l : List α)
    (h : l.dropWhile p ≠ []) : (l.dropWhile p).getLast? = l.getLast? := by
  conv_rhs => rw [← List.takeWhile_append_dropWhile p l]
  rw [List.getLast?_append]
  cases hx : (l.dropWhile p).getLast? with
  | none => exact absurd (List.getLast?_eq_none_iff.mp hx) h
  | some x => rfl

theorem mem_trimChars {l : List Char} {c : Char} (h : c ∈ trimChars l) : c ∈ l := by
  rw [trimChars, List.mem_reverse] at h
  have h1 : c ∈ (l.dropWhile jsWhitespaceChar).reverse :=
    List.Sublist.mem h (List.dropWhile_sublist _)
  rw [List.mem_reverse] at h1
  exact List.Sublist.mem h1 (List.dropWhile_sublist _)

theorem head_trimChars_not_ws {l : List Char} {x : Char}
    (h : (trimChars l).head? = some x) : jsWhitespaceChar x = false := by
  rw [trimChars, List.head?_reverse] at h
  have hne : (l.dropWhile jsWhitespaceChar).reverse.dropWhile jsWhitespaceChar ≠ [] := by
    intro he
    rw [he] at h
    simp at h
  rw [getLast?_dropWhile _ _ hne, List.getLast?_reverse] at h
  exact dropWhile_head_false h

theorem trimChars_idem (l : List Char) : trimChars (trimChars l) = trimChars l := by
  have h1 : (trimChars l).dropWhile jsWhitespaceChar = trimChars l :=
    dropWhile_eq_self_of_head (fun x hx => head_trimChars_not_ws hx)
  rw [trimChars, h1, trimChars, List.reverse_reverse, List.dropWhile_idempotent,
    ← trimChars]

theorem trimChars_all_ws {l : List Char} (h : ∀ c ∈ l, jsWhitespaceChar c = true) :
    trimChars l = [] := by
  have : l.dropWhile jsWhitespaceChar = [] := List.dropWhile_eq_nil_iff.mpr h
  rw [trimChars, this]
  rfl

theorem parseTokens_mem {l : List Char} {t : List Char} (ht : t ∈ parseTokens l) :
    t ≠ [] ∧ (∀ c ∈ t, isDelim c = false) ∧ trimChars t = t := by
  rw [parseTokens, List.mem_filter] at ht
  obtain ⟨hmem, hne⟩ := ht
  rw [List.mem_map] at hmem
  obtain ⟨u, hu, rfl⟩ := hmem
  refine ⟨by simpa [List.isEmpty_eq_false] using hne, ?_, trimChars_idem u⟩
  intro c hc
  exact (mem_splitRuns hu c (mem_trimChars hc)).2

/-- C7: for every input text composed only of whitespace, commas, and
newlines, the parsed club-id sequence is empty, and `onSubmit` rejects the
submission with the validation error before issuing any network request. -/
theorem empty_input_is_rejected (input : String)
    (h : input.data.all wsOrComma = true) :
    parseTeamIds input = [] ∧
    onSubmitAction input = SubmitAction.rejected "Provide at least one club ID." := by
  rw [List.all_eq_true] at h
  have htok : parseTokens input.data = [] := by
    rw [parseTokens, List.filter_eq_nil_iff]
    intro t' ht'
    rw [List.mem_map] at ht'
    obtain ⟨t, htmem, rfl⟩ := ht'
    have hall : ∀ c ∈ t, jsWhitespaceChar c = true := by
      intro c hc
      obtain ⟨hmem, hnd⟩ := mem_splitRuns htmem c hc
      have hwc := h c hmem
      rw [wsOrComma, Bool.or_eq_true] at hwc
      rcases hwc with hw | hcomma
      · exact hw
      · rw [decide_eq_true_eq] at hcomma
        subst hcomma
        rw [isDelim_comma] at hnd
        exact absurd hnd (by simp)
    rw [trimChars_all_ws hall]
    simp
  have hp : parseTeamIds input = [] := by rw [parseTeamIds, htok]; rfl
  refine ⟨hp, ?_⟩
  rw [onSubmitAction]
  simp [hp]

/-- Witness for `empty_input_is_rejected` at the concrete input
`" ,\n\t,, "`. -/
theorem empty_input_is_rejected_witness :
    (" ,\n\t,, ").data.all wsOrComma = true ∧
    (parseTeamIds " ,\n\t,, " = [] ∧
     onSubmitAction " ,\n\t,, " =
       SubmitAction.rejected "Provide at least one club ID.") :=
  ⟨by decide, empty_input_is_rejected " ,\n\t,, " (by decide)⟩

theorem splitRuns_delimFree {l : List Char} (hne : l ≠ [])
    (hf : ∀ c ∈ l, isDelim c = false) : splitRuns l = [l] := by
  induction l with
  | nil => exact absurd rfl hne
  | cons c cs ih =>
    have hc : isDelim c = false := hf c (List.mem_cons_self _ _)
    cases cs with
    | nil =>
      rw [splitRuns_nondelim hc (show splitRuns [] = [] :: [] from rfl)]
    | cons c2 cs2 =>
      have hrec : splitRuns (c2 :: cs2) = [c2 :: cs2] :=
        ih (by simp) (fun c' hc' => hf c' (List.mem_cons_of_mem _ hc'))
      rw [splitRuns_nondelim hc hrec]

theorem splitRuns_append_comma {a b : List Char} (ha : a ≠ [])
    (haf : ∀ c ∈ a, isDelim c = false) (hb : b ≠ [])
    (hbh : ∀ x, b.head? = some x → isDelim x = false) :
    splitRuns (a ++ ',' :: b) = a :: splitRuns b := by
  induction a with
  | nil => exact absurd rfl ha
  | cons c a' ih =>
    have hc : isDelim c = false := haf c (List.mem_cons_self _ _)
    cases a' with
    | nil =>
      cases b with
      | nil => exact absurd rfl hb
      | cons x b' =>
        have hx : isDelim x = false := hbh x rfl
        have hmid : splitRuns (',' :: x :: b') = [] :: splitRuns (x :: b') :=
          splitRuns_delim_nondelim isDelim_comma hx
        have : splitRuns ([c] ++ ',' :: x :: b') =
            (c :: ([] : List Char)) :: splitRuns (x :: b') := by
          rw [List.singleton_append]
          exact splitRuns_nondelim hc hmid
        simpa using this
    | cons c1 a2 =>
      have hrec : splitRuns ((c1 :: a2) ++ ',' :: b) = (c1 :: a2) :: splitRuns b :=
        ih (by simp) (fun c' hc' => haf c' (List.mem_cons_of_mem _ hc'))
      rw [List.cons_append]
      rw [splitRuns_nondelim hc hrec]

theorem head?_jsJoinChars {t2 : List Char} (rest2 : List (List Char))
    (h : t2 ≠ []) : (jsJoinChars [','] (t2 :: rest2)).head? = t2.head? := by
  cases rest2 with
  | nil => rfl
  | cons t3 rest3 =>
    show ((t2 ++ [',']) ++ jsJoinChars [','] (t3 :: rest3)).head? = t2.head?
    rw [List.head?_append, List.head?_append]
    cases t2 with
    | nil => exact absurd rfl h
    | cons y ys => rfl

theorem jsJoinChars_ne_nil {t2 : List Char} (rest2 : List (List Char))
    (h : t2 ≠ []) : jsJoinChars [','] (t2 :: rest2) ≠ [] := by
  intro he
  have := head?_jsJoinChars rest2 h
  rw [he] at this
  cases t2 with
  | nil => exact absurd rfl h
  | cons y ys => simp at this

theorem splitRuns_join {ts : List (List Char)} (hne : ts ≠ [])
    (h1 : ∀ t ∈ ts, t ≠ []) (h2 : ∀ t ∈ ts, ∀ c ∈ t, isDelim c = false) :
    splitRuns (jsJoinChars [','] ts) = ts := by
  induction ts with
  | nil => exact absurd rfl hne
  | cons t rest ih =>
    cases rest with
    | nil =>
      show splitRuns t = [t]
      exact splitRuns_delimFree (h1 t (List.mem_cons_self _ _))
        (h2 t (List.mem_cons_self _ _))
    | cons t2 rest2 =>
      have ht2ne : t2 ≠ [] := h1 t2 (List.mem_cons_of_mem _ (List.mem_cons_self _ _))
      have hj : jsJoinChars [','] (t :: t2 :: rest2) =
          t ++ ',' :: jsJoinChars [','] (t2 :: rest2) := by
        show (t ++ [',']) ++ jsJoinChars [','] (t2 :: rest2) =
          t ++ ',' :: jsJoinChars [','] (t2 :: rest2)
        rw [List.append_assoc]
        rfl
      rw [hj]
      have hbh : ∀ x, (jsJoinChars [','] (t2 :: rest2)).head? = some x →
          isDelim x = false := by
        intro x hx
        rw [head?_jsJoinChars rest2 ht2ne] at hx
        cases t2 with
        | nil => exact absurd rfl ht2ne
        | cons y ys =>
          simp only [List.head?_cons, Option.some.injEq] at hx
          rw [← hx]
          exact h2 (y :: ys) (List.mem_cons_of_mem _ (List.mem_cons_self _ _)) y
            (List.mem_cons_self _ _)
      rw [splitRuns_append_comma (h1 t (List.mem_cons_self _ _))
        (h2 t (List.mem_cons_self _ _)) (jsJoinChars_ne_nil rest2 ht2ne) hbh]
      rw [ih (by simp) (fun u hu => h1 u (List.mem_cons_of_mem _ hu))
        (fun u hu => h2 u (List.mem_cons_of_mem _ hu))]

/-- C8: `parseTeamIds` is idempotent through `join(",")`: re-parsing the
comma-join of a parse result yields exactly the same token sequence. -/
theorem parseTeamIds_idempotent (x : String) :
    parseTeamIds (jsJoin "," (parseTeamIds x)) = parseTeamIds x := by
  have hdata : (jsJoin "," (parseTeamIds x)).data =
      jsJoinChars [','] (parseTokens x.data) := by
    show (jsJoinChars (",".data) ((parseTeamIds x).map String.data)) =
      jsJoinChars [','] (parseTokens x.data)
    have hmd : (parseTeamIds x).map String.data = parseTokens x.data := by
      rw [parseTeamIds, List.map_map]
      have h1 : List.map (String.data ∘ fun t => String.mk t) (parseTokens x.data) =
          List.map id (parseTokens x.data) :=
        List.map_congr_left (fun t _ => rfl)
      rw [h1, List.map_id]
    rw [hmd]
  cases htk : parseTokens x.data with
  | nil =>
    have hempty : jsJoin "," (parseTeamIds x) = "" := by
      apply String.ext
      rw [hdata, htk]
      rfl
    rw [hempty]
    simp only [parseTeamIds, htk]
    rfl
  | cons t0 ts0 =>
    have hprops : ∀ t ∈ parseTokens x.data,
        t ≠ [] ∧ (∀ c ∈ t, isDelim c = false) ∧ trimChars t = t :=
      fun t ht => parseTokens_mem ht
    have hsr : splitRuns (jsJoinChars [','] (parseTokens x.data)) =
        parseTokens x.data := by
      refine splitRuns_join (by rw [htk]; simp) ?_ ?_
      · exact fun t ht => (hprops t ht).1
      · exact fun t ht => (hprops t ht).2.1
    rw [parseTeamIds, parseTokens, hdata, hsr]
    have hmap : (parseTokens x.data).map trimChars = parseTokens x.data := by
      have h1 : List.map trimChars (parseTokens x.data) =
          List.map id (parseTokens x.data) :=
        List.map_congr_left (fun t ht => (hprops t ht).2.2)
      rw [h1, List.map_id]
    rw [hmap]
    have hfil : (parseTokens x.data).filter (fun t => !t.isEmpty) =
        parseTokens x.data := by
      rw [List.filter_eq_self]
      intro t ht
      simp [List.isEmpty_eq_false.mpr (hprops t ht).1]
    rw [hfil, ← parseTeamIds]

/-! ## Lemmas about the stream-controller state machine -/

theorem closeNth_getElem? (cs : List Channel) (i j : Nat) :
    (closeNth cs i)[j]? =
      if i = j then (cs[j]?).map (fun c => { c with isOpen := false })
      else cs[j]? := by
  induction cs generalizing i j with
  | nil =>
    simp only [closeNth, List.getElem?_nil, Option.map_none']
    split <;> rfl
  | cons c cs ih =>
    cases i with
    | zero =>
      cases j with
      | zero => simp [closeNth]
      | succ j => simp [closeNth]
    | succ i =>
      cases j with
      | zero => simp [closeNth]
      | succ j =>
        simp only [closeNth, List.getElem?_cons_succ, Nat.succ.injEq]
        exact ih i j

theorem refOpen_none {s : ClientState} (h : s.esRef = none) : refOpen s = false := by
  unfold refOpen
  rw [h]

theorem refOpen_some {s : ClientState} {i : Nat} (h : s.esRef = some i) :
    refOpen s =
      (match s.channels[i]? with
       | some c => c.isOpen
       | none => false) := by
  unfold refOpen
  rw [h]

theorem closeRef_of_none {s : ClientState} (h : s.esRef = none) :
    closeRef s = s.channels := by
  unfold closeRef
  rw [h]

theorem closeRef_of_some {s : ClientState} {r : Nat} (h : s.esRef = some r) :
    closeRef s = closeNth s.channels r := by
  unfold closeRef
  rw [h]

theorem refOpen_false_of_closed {s : ClientState}
    (h : ∀ (i : Nat) (c : Channel), s.channels[i]? = some c → c.isOpen = false) :
    refOpen s = false := by
  cases he : s.esRef with
  | none => exact refOpen_none he
  | some i =>
    rw [refOpen_some he]
    cases hc : s.channels[i]? with
    | none => rfl
    | some c => exact h i c hc

theorem exists_open_of_refOpen {s : ClientState} (h : refOpen s = true) :
    ∃ (i : Nat) (c : Channel),
      s.esRef = some i ∧ s.channels[i]? = some c ∧ c.isOpen = true := by
  cases he : s.esRef with
  | none =>
    rw [refOpen_none he] at h
    cases h
  | some i =>
    rw [refOpen_some he] at h
    cases hc : s.channels[i]? with
    | none =>
      rw [hc] at h
      cases h
    | some c =>
      rw [hc] at h
      exact ⟨i, c, rfl, hc, h⟩

theorem closeRef_all_closed {s : ClientState}
    (inv : ∀ (i : Nat) (c : Channel),
      s.channels[i]? = some c → c.isOpen = true → s.esRef = some i) :
    ∀ (i : Nat) (c : Channel), (closeRef s)[i]? = some c → c.isOpen = false := by
  intro i c hc
  by_cases hb : c.isOpen = true
  · exfalso
    cases he : s.esRef with
    | none =>
      rw [closeRef_of_none he] at hc
      have := inv i c hc hb
      rw [he] at this
      cases this
    | some r =>
      rw [closeRef_of_some he, closeNth_getElem?] at hc
      by_cases hij : r = i
      · rw [if_pos hij] at hc
        cases hcs : s.channels[i]? with
        | none => rw [hcs] at hc; cases hc
        | some c0 =>
          rw [hcs] at hc
          simp only [Option.map_some', Option.some.injEq] at hc
          rw [← hc] at hb
          simp at hb
      · rw [if_neg hij] at hc
        have := inv i c hc hb
        rw [he] at this
        simp only [Option.some.injEq] at this
        exact hij this
  · exact Bool.eq_false_iff.mpr hb

theorem refCaptured_some {s : ClientState} {i : Nat} (h : s.esRef = some i) :
    refCaptured s =
      (match s.channels[i]? with
       | some c => c.capturedResult
       | none => none) := by
  unfold refCaptured
  rw [h]

theorem startStream_channel (id : String) (captured : Option JobResult)
    (s : ClientState) :
    (startStream id captured s).channels[(closeRef s).length]? =
      some { jobId := id, isOpen := true, capturedResult := captured } := by
  show (closeRef s ++
    [({ jobId := id, isOpen := true, capturedResult := captured } : Channel)])[
      (closeRef s).length]? = _
  exact List.getElem?_concat_length _ _

theorem refOpen_startStream (id : String) (captured : Option JobResult)
    (s : ClientState) : refOpen (startStream id captured s) = true := by
  have he : (startStream id captured s).esRef = some (closeRef s).length := rfl
  rw [refOpen_some he, startStream_channel]

theorem refCaptured_startStream (id : String) (captured : Option JobResult)
    (s : ClientState) : refCaptured (startStream id captured s) = captured := by
  have he : (startStream id captured s).esRef = some (closeRef s).length := rfl
  rw [refCaptured_some he, startStream_channel]

theorem refOpen_onSubmitOk (jid : String) (s : ClientState) :
    refOpen (onSubmitOk jid s) = true :=
  refOpen_startStream jid s.result _

theorem refCaptured_onSubmitOk (jid : String) (s : ClientState) :
    refCaptured (onSubmitOk jid s) = s.result :=
  refCaptured_startStream jid s.result _

theorem inv_step {a b : Bool} {s t : ClientState} (hs : Inv s)
    (hst : StepG a b s t) : Inv t := by
  cases hst with
  | fieldsOk h =>
    exact ⟨hs.openRef, hs.liveNoResult, hs.resultCompleted⟩
  | fieldsFail h ha =>
    exact ⟨hs.openRef, hs.liveNoResult, hs.resultCompleted⟩
  | submitReject input h hp ha =>
    exact ⟨hs.openRef, hs.liveNoResult, hs.resultCompleted⟩
  | submitOk input jid h hp =>
    constructor
    · intro i c hic hopen
      have hch : (onSubmitOk jid s).channels =
          closeRef s ++ [{ jobId := jid, isOpen := true,
                           capturedResult := s.result }] := rfl
      rw [hch, List.getElem?_append] at hic
      by_cases hlt : i < (closeRef s).length
      · rw [if_pos hlt] at hic
        have hcl := closeRef_all_closed hs.openRef i c hic
        rw [hcl] at hopen
        cases hopen
      · rw [if_neg hlt] at hic
        cases hd : i - (closeRef s).length with
        | zero =>
          have hi : i = (closeRef s).length := by omega
          rw [hi]
          rfl
        | succ k =>
          rw [hd] at hic
          simp at hic
    · intro _
      rfl
    · intro hr
      exact absurd hr (by simp [onSubmitOk, startStream, resetJobState])
  | submitErr input message h hp =>
    constructor
    · intro i c hic hopen
      have hch : (onSubmitErr message s).channels = closeRef s := rfl
      rw [hch] at hic
      have hcl := closeRef_all_closed hs.openRef i c hic
      rw [hcl] at hopen
      cases hopen
    · intro _
      rfl
    · intro hr
      exact absurd hr (by simp [onSubmitErr, resetJobState])
  | message fmtTs now e h =>
    cases e with
    | status st ts =>
      constructor
      · exact hs.openRef
      · exact hs.liveNoResult
      · intro hr
        have h0 := hs.liveNoResult h
        rw [show (handleStreamEvent fmtTs now (.status st ts) s).result = s.result
          from rfl, h0] at hr
        cases hr
    | log message ts =>
      exact ⟨hs.openRef, hs.liveNoResult, hs.resultCompleted⟩
    | error err ts =>
      constructor
      · intro i c hic hopen
        have hch : (handleStreamEvent fmtTs now (.error err ts) s).channels =
            closeRef s := rfl
        rw [hch] at hic
        have hcl := closeRef_all_closed hs.openRef i c hic
        rw [hcl] at hopen
        cases hopen
      · intro hro
        rw [refOpen_none rfl] at hro
        cases hro
      · intro hr
        have h0 := hs.liveNoResult h
        rw [show (handleStreamEvent fmtTs now (.error err ts) s).result = s.result
          from rfl, h0] at hr
        cases hr
    | result st ts data =>
      constructor
      · intro i c hic hopen
        have hch : (handleStreamEvent fmtTs now (.result st ts data) s).channels =
            closeRef s := rfl
        rw [hch] at hic
        have hcl := closeRef_all_closed hs.openRef i c hic
        rw [hcl] at hopen
        cases hopen
      · intro hro
        rw [refOpen_none rfl] at hro
        cases hro
      · intro _
        rfl
  | malformed h =>
    exact hs
  | connLost h =>
    constructor
    · intro i c hic hopen
      have hch : (onStreamError (refCaptured s) s).channels = closeRef s := rfl
      rw [hch] at hic
      have hcl := closeRef_all_closed hs.openRef i c hic
      rw [hcl] at hopen
      cases hopen
    · intro hro
      rw [refOpen_none rfl] at hro
      cases hro
    · exact hs.resultCompleted
  | unmount =>
    constructor
    · intro i c hic hopen
      have hch : (unmountCleanup s).channels = closeRef s := rfl
      rw [hch] at hic
      have hcl := closeRef_all_closed hs.openRef i c hic
      rw [hcl] at hopen
      cases hopen
    · intro hro
      have hfalse : refOpen (unmountCleanup s) = false :=
        refOpen_false_of_closed (closeRef_all_closed hs.openRef)
      rw [hfalse] at hro
      cases hro
    · exact hs.resultCompleted

theorem inv_initial : Inv initialState := by
  constructor
  · intro i c hic _
    exact absurd hic (by simp [initialState])
  · intro hro
    rw [refOpen_none rfl] at hro
    cases hro
  · intro hr
    cases hr

theorem inv_of_reachableG {a b : Bool} {s : ClientState} (h : ReachableG a b s) :
    Inv s := by
  induction h with
  | refl => exact inv_initial
  | tail hab hbc ih => exact inv_step ih hbc

theorem inv_of_reachable {s : ClientState} (h : Reachable s) : Inv s :=
  inv_of_reachableG h

/-! ## Lemmas about event delivery -/

theorem deliver_not_open {fmtTs : String → String} {now : String} {a : Arrival}
    {s : ClientState} (h : refOpen s = false) : deliver fmtTs now a s = s := by
  unfold deliver
  rw [h]
  simp

theorem deliver_open {fmtTs : String → String} {now : String} {a : Arrival}
    {s : ClientState} (h : refOpen s = true) :
    deliver fmtTs now a s =
      (match a with
       | .msg none => s
       | .msg (some e) => handleStreamEvent fmtTs now e s
       | .connErr => onStreamError (refCaptured s) s) := by
  unfold deliver
  rw [h]
  simp

theorem deliver_msg_some {fmtTs : String → String} {now : String} {e : StreamEvent}
    {s : ClientState} (h : refOpen s = true) :
    deliver fmtTs now (.msg (some e)) s = handleStreamEvent fmtTs now e s := by
  rw [deliver_open h]

theorem deliver_msg_none {fmtTs : String → String} {now : String}
    {s : ClientState} (h : refOpen s = true) :
    deliver fmtTs now (.msg none) s = s := by
  rw [deliver_open h]

theorem deliver_connErr {fmtTs : String → String} {now : String}
    {s : ClientState} (h : refOpen s = true) :
    deliver fmtTs now .connErr s = onStreamError (refCaptured s) s := by
  rw [deliver_open h]

theorem deliverAll_cons {fmtTs : String → String} {p : Arrival × String}
    {items : List (Arrival × String)} {s : ClientState} :
    deliverAll fmtTs (p :: items) s =
      deliverAll fmtTs items (deliver fmtTs p.2 p.1 s) := rfl

theorem deliverAll_not_open {fmtTs : String → String}
    {items : List (Arrival × String)} {s : ClientState} (h : refOpen s = false) :
    deliverAll fmtTs items s = s := by
  induction items with
  | nil => rfl
  | cons p items ih =>
    rw [deliverAll_cons, deliver_not_open h]
    exact ih

theorem handleStreamEvent_terminal_closes {fmtTs : String → String} {now : String}
    {e : StreamEvent} {s : ClientState} (h : isTerminalEvent e = true) :
    refOpen (handleStreamEvent fmtTs now e s) = false := by
  cases e with
  | status st ts => simp [isTerminalEvent] at h
  | log m ts => simp [isTerminalEvent] at h
  | error err ts => exact refOpen_none rfl
  | result st ts d => exact refOpen_none rfl

theorem isLogItem_shape {p : Arrival × String} (h : isLogItem p = true) :
    ∃ m ts, p.1 = Arrival.msg (some (.log m ts)) := by
  obtain ⟨a, n⟩ := p
  cases a with
  | connErr => exact Bool.noConfusion h
  | msg payload =>
    cases payload with
    | none => exact Bool.noConfusion h
    | some e =>
      cases e with
      | log m ts => exact ⟨m, ts, rfl⟩
      | status st ts => exact Bool.noConfusion h
      | error err ts => exact Bool.noConfusion h
      | result st ts d => exact Bool.noConfusion h

/-- Delivering only `log`-event messages changes nothing but the log
buffer. -/
theorem deliverAll_logs {fmtTs : String → String} (items : List (Arrival × String))
    (hlog : ∀ p ∈ items, ∃ m ts, p.1 = Arrival.msg (some (.log m ts)))
    (s : ClientState) :
    ∃ ls, deliverAll fmtTs items s = { s with logs := ls } := by
  induction items generalizing s with
  | nil => exact ⟨s.logs, rfl⟩
  | cons p items ih =>
    obtain ⟨m, ts, hp⟩ := hlog p (List.mem_cons_self _ _)
    rw [deliverAll_cons, hp]
    by_cases h : refOpen s = true
    · rw [deliver_msg_some h]
      obtain ⟨ls, hls⟩ := ih (fun q hq => hlog q (List.mem_cons_of_mem _ hq))
        { s with logs := s.logs ++ [logLine fmtTs p.2 m ts] }
      exact ⟨ls, hls⟩
    · rw [deliver_not_open (Bool.eq_false_iff.mpr h)]
      exact ih (fun q hq => hlog q (List.mem_cons_of_mem _ hq)) s

/-! ## Reachability of the concrete scenario states -/

theorem reachableG_submitOk (a b : Bool) :
    ReachableG a b (onSubmitOk "abc123" initialState) :=
  Relation.ReflTransGen.tail Relation.ReflTransGen.refl
    (StepG.submitOk initialState "6251" "abc123" rfl (by decide))

theorem reachableG_runningState (a b : Bool) : ReachableG a b runningState :=
  Relation.ReflTransGen.tail (reachableG_submitOk a b)
    (StepG.message (onSubmitOk "abc123" initialState) fmtId "12:00:00"
      (.status "running" none) (by decide))

theorem reachableG_completedState (a b : Bool) : ReachableG a b completedState :=
  Relation.ReflTransGen.tail (reachableG_submitOk a b)
    (StepG.message (onSubmitOk "abc123" initialState) fmtId "12:00:01"
      (.result "completed" none sampleResult) (by decide))

theorem reachable_fieldsFailState : Reachable fieldsFailState :=
  Relation.ReflTransGen.tail Relation.ReflTransGen.refl
    (StepG.fieldsFail initialState rfl rfl)

theorem reachable_bothSetState : Reachable bothSetState :=
  Relation.ReflTransGen.tail (reachableG_completedState true true)
    (StepG.submitReject completedState " , " (by decide) (by decide) rfl)

theorem reachableG_statusNamed (a b : Bool) (st : String) :
    ReachableG a b
      (handleStreamEvent fmtId "12:00:00" (.status st none)
        (onSubmitOk "job1" initialState)) :=
  Relation.ReflTransGen.tail
    (Relation.ReflTransGen.tail Relation.ReflTransGen.refl
      (StepG.submitOk initialState "27" "job1" rfl (by decide)))
    (StepG.message (onSubmitOk "job1" initialState) fmtId "12:00:00"
      (.status st none) (by decide))

/-! ## Claim theorems: stream-controller behaviour -/

/-- C1 counterexample: in the exact connection-drop scenario of the claim
(submission succeeds, `status:"running"`, one `log`, then a transport error
with no terminal event), the final state does NOT have `status = "failed"`:
the `onerror` handler never touches the job status, which stays at its last
known value `"running"`.  The error, channel and result obligations of the
claim do hold. -/
theorem connection_drop_status_not_failed :
    droppedState.jobStatus = "running" ∧ droppedState.jobStatus ≠ "failed" ∧
    droppedState.error = some "Connection to workflow stream lost." ∧
    refOpen droppedState = false ∧ droppedState.result = none := by
  refine ⟨by decide, by decide, by decide, by decide, by decide⟩

/-- C1 (amended): for every job submitted while no result from a previous
job is present (so the `onerror` closure's captured `result` is absent —
for instance the session's first job), whose stream delivers
`status:"running"` and any number of `log` events but no terminal event
before the channel reports a transport error, the final Job State keeps the
last known status `"running"` (it is not marked `"failed"`), has `error`
set to the connectivity message, the channel closed, and no result
recorded.  For a job submitted after a completed one the handler's stale
captured `result` suppresses the connectivity error entirely (see the C2
development). -/
theorem connection_drop_final_state (fmtTs : String → String) (now0 now1 : String)
    (s : ClientState) (jid : String) (items : List (Arrival × String))
    (hlog : items.all isLogItem = true) (hres : s.result = none) :
    (deliver fmtTs now1 .connErr
      (deliverAll fmtTs items
        (deliver fmtTs now0 (.msg (some (.status "running" none)))
          (onSubmitOk jid s)))).jobStatus = "running" ∧
    (deliver fmtTs now1 .connErr
      (deliverAll fmtTs items
        (deliver fmtTs now0 (.msg (some (.status "running" none)))
          (onSubmitOk jid s)))).error =
        some "Connection to workflow stream lost." ∧
    refOpen (deliver fmtTs now1 .connErr
      (deliverAll fmtTs items
        (deliver fmtTs now0 (.msg (some (.status "running" none)))
          (onSubmitOk jid s)))) = false ∧
    (deliver fmtTs now1 .connErr
      (deliverAll fmtTs items
        (deliver fmtTs now0 (.msg (some (.status "running" none)))
          (onSubmitOk jid s)))).result = none := by
  have h0 : refOpen (onSubmitOk jid s) = true := refOpen_onSubmitOk jid s
  rw [deliver_msg_some h0]
  have hlog2 : ∀ p ∈ items, ∃ m ts, p.1 = Arrival.msg (some (.log m ts)) :=
    fun p hp => isLogItem_shape (List.all_eq_true.mp hlog p hp)
  obtain ⟨ls, hls⟩ := deliverAll_logs items hlog2
    (handleStreamEvent fmtTs now0 (.status "running" none) (onSubmitOk jid s))
  rw [hls]
  have h2 : refOpen
      { handleStreamEvent fmtTs now0 (.status "running" none) (onSubmitOk jid s)
          with logs := ls } = true := h0
  have hcap : refCaptured
      { handleStreamEvent fmtTs now0 (.status "running" none) (onSubmitOk jid s)
          with logs := ls } = s.result := refCaptured_onSubmitOk jid s
  rw [hres] at hcap
  rw [deliver_connErr h2, hcap]
  exact ⟨rfl, rfl, refOpen_none rfl, rfl⟩

/-- Witness for `connection_drop_final_state` at a concrete scenario. -/
theorem connection_drop_final_state_witness :
    ([(Arrival.msg (some (.log "step 1" none)), "12:00:01")].all isLogItem) = true ∧
    initialState.result = none ∧
    ((deliver fmtId "12:00:02" .connErr
      (deliverAll fmtId [(Arrival.msg (some (.log "step 1" none)), "12:00:01")]
        (deliver fmtId "12:00:00" (.msg (some (.status "running" none)))
          (onSubmitOk "abc123" initialState)))).jobStatus = "running" ∧
    (deliver fmtId "12:00:02" .connErr
      (deliverAll fmtId [(Arrival.msg (some (.log "step 1" none)), "12:00:01")]
        (deliver fmtId "12:00:00" (.msg (some (.status "running" none)))
          (onSubmitOk "abc123" initialState)))).error =
        some "Connection to workflow stream lost." ∧
    refOpen (deliver fmtId "12:00:02" .connErr
      (deliverAll fmtId [(Arrival.msg (some (.log "step 1" none)), "12:00:01")]
        (deliver fmtId "12:00:00" (.msg (some (.status "running" none)))
          (onSubmitOk "abc123" initialState)))) = false ∧
    (deliver fmtId "12:00:02" .connErr
      (deliverAll fmtId [(Arrival.msg (some (.log "step 1" none)), "12:00:01")]
        (deliver fmtId "12:00:00" (.msg (some (.status "running" none)))
          (onSubmitOk "abc123" initialState)))).result = none) :=
  ⟨by decide, rfl,
   connection_drop_final_state fmtId "12:00:00" "12:00:02" initialState "abc123"
     [(Arrival.msg (some (.log "step 1" none)), "12:00:01")] (by decide) rfl⟩

theorem reachable_secondJobState : Reachable secondJobState :=
  Relation.ReflTransGen.tail (reachableG_completedState true true)
    (StepG.submitOk completedState "40" "job2" (by decide) (by decide))

theorem reachable_secondJobDropState : Reachable secondJobDropState := by
  refine Relation.ReflTransGen.tail reachable_secondJobState ?_
  have hd : secondJobDropState =
      onStreamError (refCaptured secondJobState) secondJobState :=
    deliver_connErr (by decide)
  rw [hd]
  exact StepG.connLost secondJobState (by decide)

/-- C2, evaluated at the failing input: after job `"abc123"` completes with
`sampleResult` and a second job `"job2"` is submitted (so the current Job
State records no result and the channel is live), a transport error closes
the channel but surfaces NO connectivity error, because the `onerror`
closure installed by the second `startStream` still captured the first
job's result (part_000 line 146, dependency array line 151).  The claim —
error set whenever no result has yet been recorded for the current job —
describes the handler's evident intent, which the stale closure capture
breaks. -/
theorem transport_failure_stale_capture :
    Reachable secondJobState ∧
    secondJobState.result = none ∧
    refOpen secondJobState = true ∧
    refCaptured secondJobState = some sampleResult ∧
    Reachable secondJobDropState ∧
    refOpen secondJobDropState = false ∧
    secondJobDropState.error = none ∧
    secondJobDropState.result = none :=
  ⟨reachable_secondJobState, by decide, by decide, by decide,
   reachable_secondJobDropState, by decide, by decide, by decide⟩

/-- C5: once a terminal (`result` or `error`) event has been applied, no
subsequently arriving delivery (further messages, malformed payloads, or
transport errors) changes `status`, `result`, or `error`. -/
theorem terminal_event_exclusivity (fmtTs : String → String) (now : String)
    (s : ClientState) (e : StreamEvent) (hterm : isTerminalEvent e = true)
    (rest : List (Arrival × String)) :
    stateView (deliverAll fmtTs rest (deliver fmtTs now (.msg (some e)) s)) =
      stateView (deliver fmtTs now (.msg (some e)) s) := by
  by_cases ho : refOpen s = true
  · rw [deliver_msg_some ho,
      deliverAll_not_open (handleStreamEvent_terminal_closes hterm)]
  · have hf : refOpen s = false := Bool.eq_false_iff.mpr ho
    rw [deliver_not_open hf, deliverAll_not_open hf]

/-- Witness for `terminal_event_exclusivity`: a terminal `error` event at
`runningState` followed by further deliveries. -/
theorem terminal_event_exclusivity_witness :
    isTerminalEvent (.error "scrape failed" none) = true ∧
    stateView (deliverAll fmtId
        [(Arrival.msg (some (.status "running" none)), "12:00:03"),
         (Arrival.msg (some (.result "completed" none sampleResult)), "12:00:04"),
         (Arrival.connErr, "12:00:05")]
      (deliver fmtId "12:00:02" (.msg (some (.error "scrape failed" none)))
        runningState)) =
      stateView (deliver fmtId "12:00:02"
        (.msg (some (.error "scrape failed" none))) runningState) :=
  ⟨rfl, terminal_event_exclusivity fmtId "12:00:02" runningState
    (.error "scrape failed" none) rfl
    [(Arrival.msg (some (.status "running" none)), "12:00:03"),
     (Arrival.msg (some (.result "completed" none sampleResult)), "12:00:04"),
     (Arrival.connErr, "12:00:05")]⟩

/-- C9: a malformed (unparseable) payload delivered between two valid `log`
events changes no Job State field; both valid log lines are appended in
order. -/
theorem malformed_message_is_ignored (fmtTs : String → String)
    (now1 nowBad now2 : String) (s : ClientState) (m1 m2 : String)
    (ts1 ts2 : Option String) (h : refOpen s = true) :
    deliverAll fmtTs
        [(Arrival.msg (some (.log m1 ts1)), now1), (Arrival.msg none, nowBad),
         (Arrival.msg (some (.log m2 ts2)), now2)] s =
      { s with logs := s.logs ++ [logLine fmtTs now1 m1 ts1,
                                  logLine fmtTs now2 m2 ts2] } := by
  have h1 : refOpen (handleStreamEvent fmtTs now1 (.log m1 ts1) s) = true := h
  rw [deliverAll_cons, deliver_msg_some h, deliverAll_cons, deliver_msg_none h1,
    deliverAll_cons, deliver_msg_some h1]
  show ({ s with logs := (s.logs ++ [logLine fmtTs now1 m1 ts1]) ++
    [logLine fmtTs now2 m2 ts2] } : ClientState) = _
  rw [List.append_assoc]
  rfl

/-- Witness for `malformed_message_is_ignored` at `runningState`. -/
theorem malformed_message_is_ignored_witness :
    refOpen runningState = true ∧
    deliverAll fmtId
        [(Arrival.msg (some (.log "line A" none)), "12:00:01"),
         (Arrival.msg none, "12:00:02"),
         (Arrival.msg (some (.log "line B" none)), "12:00:03")] runningState =
      { runningState with
        logs := runningState.logs ++ [logLine fmtId "12:00:01" "line A" none,
                                      logLine fmtId "12:00:03" "line B" none] } :=
  ⟨by decide, malformed_message_is_ignored fmtId "12:00:01" "12:00:02" "12:00:03"
    runningState "line A" "line B" none none (by decide)⟩

/-! ## Claim theorems: invariants over reachable states -/

/-- C3 counterexample: the claimed biconditional invariant fails on reachable
states.  A catalog-fetch failure populates `error` while the status is still
`"Idle"`; a server `status` event carrying the literal `"completed"` sets the
status to `"completed"` with no result; one carrying `"failed"` sets
`"failed"` with no error. -/
theorem result_error_invariant_fails :
    (Reachable fieldsFailState ∧ fieldsFailState.error.isSome = true ∧
      fieldsFailState.jobStatus ≠ "failed") ∧
    (Reachable statusCompletedState ∧
      statusCompletedState.jobStatus = "completed" ∧
      statusCompletedState.result = none) ∧
    (Reachable statusFailedState ∧ statusFailedState.jobStatus = "failed" ∧
      statusFailedState.error = none) :=
  ⟨⟨reachable_fieldsFailState, by decide, by decide⟩,
   ⟨reachableG_statusNamed true true "completed", by decide, by decide⟩,
   ⟨reachableG_statusNamed true true "failed", by decide, by decide⟩⟩

/-- C3 (amended): the only direction of the claimed invariant that holds over
every reachable client state: if `result` is populated then
`status = "completed"`.  The converse fails (a server `status` event can carry
`"completed"`), and `error` can be populated while status is not `"failed"`
(catalog-fetch failure, validation rejection, connection loss), and status can
be `"failed"` with no error (a server `status` event carrying `"failed"`). -/
theorem result_implies_completed {s : ClientState} (h : Reachable s)
    (hr : s.result.isSome = true) : s.jobStatus = "completed" :=
  (inv_of_reachable h).resultCompleted hr

/-- Witness for `result_implies_completed` at `completedState`. -/
theorem result_implies_completed_witness :
    Reachable completedState ∧ completedState.result.isSome = true ∧
    completedState.jobStatus = "completed" :=
  ⟨reachableG_completedState true true, by decide,
   result_implies_completed (reachableG_completedState true true) (by decide)⟩

/-- C4: at-most-one live channel: in every reachable client state, any two
open channels coincide — a new channel is only ever opened by `startStream`
after closing the previous one, and resets/teardown close the live one. -/
theorem at_most_one_open_channel {s : ClientState} (h : Reachable s) :
    ∀ (i j : Nat) (ci cj : Channel), s.channels[i]? = some ci →
      ci.isOpen = true → s.channels[j]? = some cj → cj.isOpen = true → i = j := by
  intro i j ci cj hi hio hj hjo
  have h1 := (inv_of_reachable h).openRef i ci hi hio
  have h2 := (inv_of_reachable h).openRef j cj hj hjo
  rw [h1] at h2
  exact Option.some.inj h2

/-- Witness for `at_most_one_open_channel` at `runningState` (whose only
channel, index 0, is open). -/
theorem at_most_one_open_channel_witness :
    Reachable runningState ∧
    (runningState.channels[0]? =
      some { jobId := "abc123", isOpen := true, capturedResult := none } ∧
     (0 : Nat) = 0) :=
  ⟨reachableG_runningState true true,
   by decide,
   at_most_one_open_channel (reachableG_runningState true true) 0 0
     { jobId := "abc123", isOpen := true, capturedResult := none }
     { jobId := "abc123", isOpen := true, capturedResult := none }
     (by decide) (by decide) (by decide) (by decide)⟩

theorem invR_step {s t : ClientState} (hs : Inv s) (hsR : InvR s)
    (hst : StepG false false s t) : InvR t := by
  cases hst with
  | fieldsOk h =>
    exact ⟨hsR.liveNoError, hsR.mutex⟩
  | fieldsFail h ha => cases ha
  | submitReject input h hp ha => cases ha
  | submitOk input jid h hp =>
    constructor
    · intro _
      rfl
    · rintro ⟨hr, he⟩
      cases hr
  | submitErr input message h hp =>
    constructor
    · intro hro
      rw [refOpen_none rfl] at hro
      cases hro
    · rintro ⟨hr, he⟩
      cases hr
  | message fmtTs now e h =>
    cases e with
    | status st ts =>
      exact ⟨hsR.liveNoError, hsR.mutex⟩
    | log m ts =>
      exact ⟨hsR.liveNoError, hsR.mutex⟩
    | error err ts =>
      constructor
      · intro hro
        rw [refOpen_none rfl] at hro
        cases hro
      · rintro ⟨hr, he⟩
        have h0 := hs.liveNoResult h
        rw [show (handleStreamEvent fmtTs now (.error err ts) s).result = s.result
          from rfl, h0] at hr
        cases hr
    | result st ts data =>
      constructor
      · intro hro
        rw [refOpen_none rfl] at hro
        cases hro
      · rintro ⟨hr, he⟩
        have h0 := hsR.liveNoError h
        rw [show (handleStreamEvent fmtTs now (.result st ts data) s).error = s.error
          from rfl, h0] at he
        cases he
  | malformed h =>
    exact hsR
  | connLost h =>
    constructor
    · intro hro
      rw [refOpen_none rfl] at hro
      cases hro
    · rintro ⟨hr, he⟩
      have h0 := hs.liveNoResult h
      rw [show (onStreamError (refCaptured s) s).result = s.result from rfl,
        h0] at hr
      cases hr
  | unmount =>
    constructor
    · intro hro
      have hf : refOpen (unmountCleanup s) = false :=
        refOpen_false_of_closed (closeRef_all_closed hs.openRef)
      rw [hf] at hro
      cases hro
    · exact hsR.mutex

theorem invR_of_reachableR {s : ClientState} (h : ReachableG false false s) :
    InvR s := by
  induction h with
  | refl =>
    constructor
    · intro _
      rfl
    · rintro ⟨hr, he⟩
      cases hr
  | tail hab hbc ih => exact invR_step (inv_of_reachableG hab) ih hbc

/-- C6 counterexample: the claimed mutual exclusion fails once submission
attempts are interleaved: after a completed job, a validation-rejected
resubmission (empty club-id input) sets `error` while `result` is still
populated. -/
theorem result_error_both_populated :
    Reachable bothSetState ∧ bothSetState.result.isSome = true ∧
    bothSetState.error.isSome = true :=
  ⟨reachable_bothSetState, by decide, by decide⟩

/-- C6 (amended): `result`/`error` mutual exclusion holds for every sequence
of applied events that contains no validation-rejected submission and no
catalog-fetch failure (the two non-stream paths that write `error` without
resetting state). -/
theorem result_error_mutex {s : ClientState} (h : ReachableG false false s) :
    ¬(s.result.isSome = true ∧ s.error.isSome = true) :=
  (invR_of_reachableR h).mutex

/-- Witness for `result_error_mutex` at `completedState`, reachable without
rejected submissions or catalog failures: the result is populated, so the
mutual-exclusion theorem forces the error to be absent. -/
theorem result_error_mutex_witness :
    ReachableG false false completedState ∧
    completedState.result.isSome = true ∧
    completedState.error.isSome = false := by
  refine ⟨reachableG_completedState false false, by decide, ?_⟩
  have hm := result_error_mutex (reachableG_completedState false false)
  cases herr : completedState.error.isSome
  · rfl
  · exact absurd ⟨by decide, herr⟩ hm

/-! ## Lemmas about percent-encoding and UTF-8 -/

theorem char_toNat_lt (c : Char) : c.toNat < 0x110000 := by
  rcases c.valid with h | ⟨h1, h2⟩
  · exact Nat.lt_trans h (by decide)
  · exact h2

theorem utf8Bytes_lt (c : Char) : ∀ b ∈ utf8Bytes c, b < 256 := by
  intro b hb
  have hn := char_toNat_lt c
  simp only [utf8Bytes] at hb
  split_ifs at hb with h1 h2 h3
  · simp only [List.mem_singleton] at hb
    omega
  · simp only [List.mem_cons, List.mem_singleton, List.not_mem_nil, or_false] at hb
    rcases hb with rfl | rfl <;> omega
  · simp only [List.mem_cons, List.mem_singleton, List.not_mem_nil, or_false] at hb
    rcases hb with rfl | rfl | rfl <;> omega
  · simp only [List.mem_cons, List.mem_singleton, List.not_mem_nil, or_false] at hb
    rcases hb with rfl | rfl | rfl | rfl <;> omega

theorem hexVal_hexDigit : ∀ n : Nat, n < 16 → hexVal (hexDigitChar n) = some n := by
  decide

theorem unreserved_facts {c : Char} (h : isUnreservedChar c = true) :
    c.toNat < 128 ∧ c ≠ '%' := by
  rw [isUnreservedChar] at h
  simp only [Bool.or_eq_true, Bool.and_eq_true, decide_eq_true_eq] at h
  constructor
  · rcases h with
      ((((((((((h | h) | h) | h) | h) | h) | h) | h) | h) | h) | h) | h <;> omega
  · intro he
    subst he
    exact absurd h (by decide)

theorem utf8Bytes_eq (c : Char) :
    utf8Bytes c =
      if c.toNat < 0x80 then [c.toNat]
      else if c.toNat < 0x800 then [0xC0 + c.toNat / 64, 0x80 + c.toNat % 64]
      else if c.toNat < 0x10000 then
        [0xE0 + c.toNat / 4096, 0x80 + c.toNat / 64 % 64, 0x80 + c.toNat % 64]
      else [0xF0 + c.toNat / 0x40000, 0x80 + c.toNat / 4096 % 64,
        0x80 + c.toNat / 64 % 64, 0x80 + c.toNat % 64] := rfl

theorem utf8Bytes_ascii {c : Char} (h : c.toNat < 128) :
    utf8Bytes c = [c.toNat] := by
  rw [utf8Bytes_eq, if_pos h]

theorem pdb_passthrough {c : Char} (hne : c ≠ '%') (rest : List Char) :
    percentDecodeBytes (c :: rest) =
      (percentDecodeBytes rest).map (fun bs => utf8Bytes c ++ bs) := by
  match rest with
  | h :: l :: rest2 => rw [percentDecodeBytes.eq_2, if_neg hne]
  | [] =>
    rw [percentDecodeBytes.eq_3 c [] (by intro h' l' r2 he; simp at he), if_neg hne]
  | [h] =>
    rw [percentDecodeBytes.eq_3 c [h] (by intro h' l' r2 he; simp at he), if_neg hne]

theorem pdb_percent_triple (b : Nat) (hb : b < 256) (rest : List Char) :
    percentDecodeBytes (percentByte b ++ rest) =
      (percentDecodeBytes rest).map (fun bs => b :: bs) := by
  show percentDecodeBytes
    ('%' :: hexDigitChar (b / 16) :: hexDigitChar (b % 16) :: rest) = _
  simp only [percentDecodeBytes]
  rw [if_pos trivial]
  rw [hexVal_hexDigit (b / 16) (by omega), hexVal_hexDigit (b % 16) (by omega)]
  show (percentDecodeBytes rest).map (fun bs => (16 * (b / 16) + b % 16) :: bs) = _
  rw [Nat.div_add_mod]

theorem pdb_triples (bytes : List Nat) (hb : ∀ b ∈ bytes, b < 256)
    (rest : List Char) :
    percentDecodeBytes ((bytes.map percentByte).flatten ++ rest) =
      (percentDecodeBytes rest).map (fun bs => bytes ++ bs) := by
  induction bytes with
  | nil =>
    simp only [List.map_nil, List.flatten_nil, List.nil_append]
    cases hp : percentDecodeBytes rest <;> simp
  | cons b bytes ih =>
    simp only [List.map_cons, List.flatten_cons, List.append_assoc]
    rw [pdb_percent_triple b (hb b (List.mem_cons_self _ _)) _,
      ih (fun x hx => hb x (List.mem_cons_of_mem _ hx))]
    cases hp : percentDecodeBytes rest <;> simp

theorem pdb_encodeChar (c : Char) (rest : List Char) :
    percentDecodeBytes (encodeChar c ++ rest) =
      (percentDecodeBytes rest).map (fun bs => utf8Bytes c ++ bs) := by
  by_cases h : isUnreservedChar c = true
  · rw [encodeChar, if_pos h]
    obtain ⟨hlt, hne⟩ := unreserved_facts h
    show percentDecodeBytes (c :: rest) = _
    exact pdb_passthrough hne rest
  · rw [encodeChar, if_neg h]
    exact pdb_triples (utf8Bytes c) (utf8Bytes_lt c) rest

theorem utf8DecodeStep_one {b : Nat} (bs : List Nat) (h : b < 0x80) :
    utf8DecodeStep b bs = some (Char.ofNat b, 0) := by
  unfold utf8DecodeStep
  rw [if_pos h]

theorem utf8DecodeStep_two {b b2 : Nat} (bs : List Nat) (h1 : 0xC0 ≤ b)
    (h2 : b < 0xE0) (hc : utf8Cont b2 = true) :
    utf8DecodeStep b (b2 :: bs) =
      some (Char.ofNat ((b - 0xC0) * 64 + (b2 - 0x80)), 1) := by
  unfold utf8DecodeStep
  rw [if_neg (by omega), if_neg (by omega), if_pos h2]
  show (if utf8Cont b2 then some (Char.ofNat ((b - 0xC0) * 64 + (b2 - 0x80)), 1)
    else none) = _
  rw [if_pos hc]

theorem utf8DecodeStep_three {b b2 b3 : Nat} (bs : List Nat) (h1 : 0xE0 ≤ b)
    (h2 : b < 0xF0) (hc2 : utf8Cont b2 = true) (hc3 : utf8Cont b3 = true) :
    utf8DecodeStep b (b2 :: b3 :: bs) =
      some (Char.ofNat ((b - 0xE0) * 4096 + (b2 - 0x80) * 64 + (b3 - 0x80)), 2) := by
  unfold utf8DecodeStep
  rw [if_neg (by omega), if_neg (by omega), if_neg (by omega), if_pos h2]
  show (if utf8Cont b2 && utf8Cont b3 then
    some (Char.ofNat ((b - 0xE0) * 4096 + (b2 - 0x80) * 64 + (b3 - 0x80)), 2)
    else none) = _
  rw [if_pos (by rw [hc2, hc3]; rfl)]

theorem utf8DecodeStep_four {b b2 b3 b4 : Nat} (bs : List Nat) (h1 : 0xF0 ≤ b)
    (h2 : b < 0xF8) (hc2 : utf8Cont b2 = true) (hc3 : utf8Cont b3 = true)
    (hc4 : utf8Cont b4 = true) :
    utf8DecodeStep b (b2 :: b3 :: b4 :: bs) =
      some (Char.ofNat ((b - 0xF0) * 0x40000 + (b2 - 0x80) * 4096 +
        (b3 - 0x80) * 64 + (b4 - 0x80)), 3) := by
  unfold utf8DecodeStep
  rw [if_neg (by omega), if_neg (by omega), if_neg (by omega), if_neg (by omega),
    if_pos h2]
  show (if utf8Cont b2 && utf8Cont b3 && utf8Cont b4 then
    some (Char.ofNat ((b - 0xF0) * 0x40000 + (b2 - 0x80) * 4096 +
      (b3 - 0x80) * 64 + (b4 - 0x80)), 3)
    else none) = _
  rw [if_pos (by rw [hc2, hc3, hc4]; rfl)]

theorem utf8Decode_cons_step {b : Nat} {bs : List Nat} {c : Char} {k : Nat}
    (h : utf8DecodeStep b bs = some (c, k)) :
    utf8Decode (b :: bs) = (utf8Decode (bs.drop k)).map (fun cs => c :: cs) := by
  rw [utf8Decode.eq_2, h]

theorem utf8Cont_of_mod {n : Nat} : utf8Cont (0x80 + n % 64) = true := by
  simp only [utf8Cont, Bool.and_eq_true, decide_eq_true_eq]
  omega

theorem utf8Decode_append (c : Char) (bs : List Nat) :
    utf8Decode (utf8Bytes c ++ bs) = (utf8Decode bs).map (fun cs => c :: cs) := by
  have hn := char_toNat_lt c
  by_cases h1 : c.toNat < 0x80
  · rw [utf8Bytes_ascii h1]
    show utf8Decode (c.toNat :: bs) = _
    rw [utf8Decode_cons_step (utf8DecodeStep_one bs h1), Char.ofNat_toNat]
    rfl
  · by_cases h2 : c.toNat < 0x800
    · have hb : utf8Bytes c = [0xC0 + c.toNat / 64, 0x80 + c.toNat % 64] := by
        rw [utf8Bytes_eq, if_neg h1, if_pos h2]
      rw [hb]
      show utf8Decode ((0xC0 + c.toNat / 64) :: (0x80 + c.toNat % 64) :: bs) = _
      rw [utf8Decode_cons_step
        (utf8DecodeStep_two bs (by omega) (by omega) utf8Cont_of_mod)]
      have harith : (0xC0 + c.toNat / 64 - 0xC0) * 64 + (0x80 + c.toNat % 64 - 0x80)
          = c.toNat := by omega
      rw [harith, Char.ofNat_toNat]
      rfl
    · by_cases h3 : c.toNat < 0x10000
      · have hb : utf8Bytes c = [0xE0 + c.toNat / 4096, 0x80 + c.toNat / 64 % 64,
            0x80 + c.toNat % 64] := by
          rw [utf8Bytes_eq, if_neg h1, if_neg h2, if_pos h3]
        rw [hb]
        show utf8Decode ((0xE0 + c.toNat / 4096) :: (0x80 + c.toNat / 64 % 64) ::
          (0x80 + c.toNat % 64) :: bs) = _
        rw [utf8Decode_cons_step
          (utf8DecodeStep_three bs (by omega) (by omega) utf8Cont_of_mod
            utf8Cont_of_mod)]
        have harith : (0xE0 + c.toNat / 4096 - 0xE0) * 4096 +
            (0x80 + c.toNat / 64 % 64 - 0x80) * 64 + (0x80 + c.toNat % 64 - 0x80)
            = c.toNat := by omega
        rw [harith, Char.ofNat_toNat]
        rfl
      · have hb : utf8Bytes c = [0xF0 + c.toNat / 0x40000,
            0x80 + c.toNat / 4096 % 64, 0x80 + c.toNat / 64 % 64,
            0x80 + c.toNat % 64] := by
          rw [utf8Bytes_eq, if_neg h1, if_neg h2, if_neg h3]
        rw [hb]
        show utf8Decode ((0xF0 + c.toNat / 0x40000) :: (0x80 + c.toNat / 4096 % 64) ::
          (0x80 + c.toNat / 64 % 64) :: (0x80 + c.toNat % 64) :: bs) = _
        rw [utf8Decode_cons_step
          (utf8DecodeStep_four bs (by omega) (by omega) utf8Cont_of_mod
            utf8Cont_of_mod utf8Cont_of_mod)]
        have harith : (0xF0 + c.toNat / 0x40000 - 0xF0) * 0x40000 +
            (0x80 + c.toNat / 4096 % 64 - 0x80) * 4096 +
            (0x80 + c.toNat / 64 % 64 - 0x80) * 64 +
            (0x80 + c.toNat % 64 - 0x80) = c.toNat := by omega
        rw [harith, Char.ofNat_toNat]
        rfl

theorem pdb_encode (l : List Char) :
    percentDecodeBytes ((l.map encodeChar).flatten) =
      some ((l.map utf8Bytes).flatten) := by
  induction l with
  | nil => rfl
  | cons c l ih =>
    simp only [List.map_cons, List.flatten_cons]
    rw [pdb_encodeChar, ih]
    rfl

theorem utf8Decode_flatten (l : List Char) :
    utf8Decode ((l.map utf8Bytes).flatten) = some l := by
  induction l with
  | nil => exact utf8Decode.eq_1
  | cons c l ih =>
    simp only [List.map_cons, List.flatten_cons]
    rw [utf8Decode_append, ih]
    rfl

theorem decode_encode (s : String) :
    decodeURIComponent (encodeURIComponent s) = some s := by
  have h1 : percentDecodeBytes ((encodeURIComponent s).data) =
      some ((s.data.map utf8Bytes).flatten) := pdb_encode s.data
  unfold decodeURIComponent
  rw [h1]
  show (match utf8Decode ((s.data.map utf8Bytes).flatten) with
    | none => none
    | some cs => some (String.mk cs)) = some s
  rw [utf8Decode_flatten]

/-- C10: `downloadUrl` is the base URL followed by `/download?path=` and the
percent-encoding of the path (space encoded as `%20`), URL-decoding the query
value recovers exactly the path, and the concrete example `"a/b c.csv"`
yields the claimed `a%2Fb%20c.csv` encoding. -/
theorem downloadUrl_spec (p : String) :
    downloadUrl p = API_BASE ++ "/download?path=" ++ encodeURIComponent p ∧
    decodeURIComponent (encodeURIComponent p) = some p ∧
    downloadUrl "a/b c.csv" =
      "http://localhost:8080/download?path=a%2Fb%20c.csv" ∧
    encodeURIComponent " " = "%20" :=
  ⟨rfl, decode_encode p, by decide, by decide⟩

end ClubScraper
